import Mathlib

/-
A verification development for the docspace document-archive tool
(`docspace/app.py`).

The Python source is shallowly embedded: Python `str` values are modelled as
`List Char`, `pathlib.Path` values as lists of path components, and the file
system as an association list from paths to file contents.  Python exceptions
are modelled with an explicit error type; a stateful operation returns the
resulting file system next to its `Except` outcome, since on-disk mutations
performed before an exception persist.  External collaborators (libmagic mime
sniffing, the tesseract OCR container, pdf2image rasterization, the md5
accumulator) are parameters of the model.
-/

set_option maxHeartbeats 1000000

namespace Docspace

/-- A Python `str`: a sequence of characters. -/
abbrev Name := List Char

/-- A `pathlib.Path`: a sequence of path components. -/
abbrev Path := List Name

/-- File content.  The tool opens files both in binary mode (for hashing) and
in text mode (for text extraction); a single character-sequence type models
both faithfully enough for the properties considered here. -/
abbrev Content := List Char

/-- The file system: an association list mapping each file path to its
content.  Directories are not tracked; `mkdir` calls are no-ops in the
model. -/
abbrev FS := List (Path × Content)

/-- Reading a file: the first entry with the given path, if any. -/
def fread (fs : FS) (p : Path) : Option Content :=
  match fs with
  | [] => none
  | (q, c) :: rest => if q = p then some c else fread rest p

/-- `Path.exists()` / `Path.is_file()` for the model. -/
def fexists (fs : FS) (p : Path) : Bool :=
  (fread fs p).isSome

/-- Writing (creating or truncating) a file. -/
def fwrite (fs : FS) (p : Path) (c : Content) : FS :=
  (p, c) :: fs.filter (fun e => !(decide (e.1 = p)))

@[simp] theorem fread_fwrite_self (fs : FS) (p : Path) (c : Content) :
    fread (fwrite fs p c) p = some c := by
  simp [fread, fwrite]

theorem fread_filter_ne (fs : FS) (p q : Path) (h : q ≠ p) :
    fread (fs.filter (fun e => !(decide (e.1 = p)))) q = fread fs q := by
  induction fs with
  | nil => rfl
  | cons e rest ih =>
    by_cases hq : e.1 = q
    · subst hq
      simp [fread, List.filter, h, ih]
    · have h' : p ≠ q := Ne.symm h
      by_cases hp : e.1 = p
      · simp [fread, List.filter, hp, hq, h', ih]
      · simp [fread, List.filter, hp, hq, ih]

theorem fread_fwrite_ne (fs : FS) (p q : Path) (c : Content) (h : q ≠ p) :
    fread (fwrite fs p c) q = fread fs q := by
  have h' : p ≠ q := Ne.symm h
  simp [fwrite, fread, h', fread_filter_ne fs p q h]

theorem fexists_iff_mem_keys (fs : FS) (p : Path) :
    fexists fs p = true ↔ p ∈ fs.map Prod.fst := by
  induction fs with
  | nil => simp [fexists, fread]
  | cons e rest ih =>
    by_cases h : e.1 = p
    · simp [fexists, fread, h]
    · simpa [fexists, fread, h, Ne.symm h] using ih

/-! ### Decimal rendering of a natural number

Python renders the collision counter and the pdf page number with decimal
`str` formatting (`f'_{counter}'`, `f'output_{num}.jpg'`).  The rendering is
defined with explicit fuel so that it is structurally recursive and reduces
inside the kernel. -/

/-- The decimal digit characters. -/
def digitChar : Nat → Char
  | 0 => '0' | 1 => '1' | 2 => '2' | 3 => '3' | 4 => '4'
  | 5 => '5' | 6 => '6' | 7 => '7' | 8 => '8' | _ => '9'

/-- Little-endian decimal digits of `n`; `fuel ≥ n` renders all of them. -/
def natDigitsAux : Nat → Nat → List Char
  | 0, _ => []
  | _, 0 => []
  | fuel + 1, n + 1 => digitChar ((n + 1) % 10) :: natDigitsAux fuel ((n + 1) / 10)

/-- Python's `str(n)` for a natural number. -/
def natStr (n : Nat) : List Char :=
  if n = 0 then ['0'] else (natDigitsAux n n).reverse

/-- Numeric value of a digit character. -/
def charVal (c : Char) : Nat := c.toNat - 48

theorem charVal_digitChar (d : Nat) (hd : d < 10) : charVal (digitChar d) = d := by
  interval_cases d <;> rfl

/-- Little-endian decimal reconstruction. -/
def unDigits : List Char → Nat
  | [] => 0
  | c :: rest => charVal c + 10 * unDigits rest

theorem unDigits_natDigitsAux (fuel : Nat) :
    ∀ n, n ≤ fuel → unDigits (natDigitsAux fuel n) = n := by
  induction fuel with
  | zero => intro n hn; interval_cases n; rfl
  | succ fuel ih =>
    intro n hn
    match n with
    | 0 => rfl
    | m + 1 =>
      have hdiv : (m + 1) / 10 ≤ fuel := by
        have h1 : (m + 1) / 10 < m + 1 := Nat.div_lt_self (Nat.succ_pos m) (by omega)
        omega
      have hrec := ih ((m + 1) / 10) hdiv
      simp only [natDigitsAux, unDigits, hrec,
        charVal_digitChar ((m + 1) % 10) (Nat.mod_lt _ (by omega))]
      omega

theorem natStr_injective : Function.Injective natStr := by
  intro a b hab
  by_cases ha : a = 0 <;> by_cases hb : b = 0
  · omega
  · exfalso
    simp only [natStr, ha, hb, ite_true, ite_false] at hab
    have : unDigits (natDigitsAux b b) = b := unDigits_natDigitsAux b b le_rfl
    rw [← List.reverse_reverse (natDigitsAux b b), ← hab] at this
    simp [unDigits, charVal] at this
    omega
  · exfalso
    simp only [natStr, ha, hb, ite_true, ite_false] at hab
    have : unDigits (natDigitsAux a a) = a := unDigits_natDigitsAux a a le_rfl
    rw [← List.reverse_reverse (natDigitsAux a a), hab] at this
    simp [unDigits, charVal] at this
    omega
  · simp only [natStr, ha, hb, ite_false] at hab
    have h := List.reverse_injective hab
    have hA := unDigits_natDigitsAux a a le_rfl
    have hB := unDigits_natDigitsAux b b le_rfl
    rw [h] at hA
    omega

/-! ### `pathlib` name arithmetic

`PurePath.stem`, `.suffix`, `.suffixes` and `.with_suffix('')` as implemented
by CPython, over the final path component. -/

/-- Index of the last `'.'` in a character list (`name.rfind('.')`, as an
`Option` instead of `-1`). -/
def lastDotIdx : List Char → Option Nat
  | [] => none
  | c :: cs =>
    match lastDotIdx cs with
    | some i => some (i + 1)
    | none => if c = '.' then some 0 else none

/-- `PurePath.stem`: the final component without its last suffix.  CPython:
`i = name.rfind('.')`; the suffix is split off only when `0 < i < len(name)-1`. -/
def pyStemL (name : List Char) : List Char :=
  match lastDotIdx name with
  | some i => if 0 < i ∧ i + 1 < name.length then name.take i else name
  | none => name

/-- `PurePath.suffix`: the last file extension of the final component
(including the dot), or `[]`. -/
def pySuffixL (name : List Char) : List Char :=
  match lastDotIdx name with
  | some i => if 0 < i ∧ i + 1 < name.length then name.drop i else []
  | none => []

/-- `str.split(sep)` for a single-character separator. -/
def splitOnChar (sep : Char) : List Char → List (List Char)
  | [] => [[]]
  | c :: cs =>
    let r := splitOnChar sep cs
    if c = sep then [] :: r
    else
      match r with
      | [] => [[c]]
      | h :: t => (c :: h) :: t

/-- `PurePath.suffixes`: CPython returns `[]` when the name ends with a dot,
else strips leading dots and returns `'.' + part` for every part after the
first of `name.split('.')`. -/
def pySuffixesL (name : List Char) : List (List Char) :=
  if name.getLast? = some '.' then []
  else
    match splitOnChar '.' (name.dropWhile (fun c => c = '.')) with
    | [] => []
    | _ :: rest => rest.map (fun s => '.' :: s)

/-- Whitespace characters removed by `str.strip()`. -/
def isPySpace (c : Char) : Bool :=
  c = ' ' || c = '\n' || c = '\t' || c = '\r' || c = '\x0b' || c = '\x0c'

/-- `str.strip()`. -/
def pyStrip (l : List Char) : List Char :=
  ((l.dropWhile isPySpace).reverse.dropWhile isPySpace).reverse

/-- `f.readlines()` followed by `.strip()` on every line, as in
`is_not_imported`.  `readlines` splits after every newline and never yields a
trailing empty line. -/
def readlinesStripped (c : Content) : List Name :=
  let parts := splitOnChar '\n' c
  let parts := if parts.getLast? = some [] then parts.dropLast else parts
  parts.map pyStrip

/-- `Path.name`: the final path component (`''` for the empty path). -/
def pathName (p : Path) : Name := p.getLast?.getD []

/-- `str(path)` for a relative path: components joined with `'/'`. -/
def renderPath : Path → Name
  | [] => []
  | [n] => n
  | n :: m :: rest => n ++ '/' :: renderPath (m :: rest)

/-! Lemmas about the name arithmetic. -/

theorem lastDotIdx_isSome_get (l : List Char) (i : Nat) (h : lastDotIdx l = some i) :
    l.get? i = some '.' := by
  induction l generalizing i with
  | nil => simp [lastDotIdx] at h
  | cons c cs ih =>
    simp only [lastDotIdx] at h
    cases hcs : lastDotIdx cs with
    | some j =>
      rw [hcs] at h
      cases h
      simpa using ih j hcs
    | none =>
      rw [hcs] at h
      by_cases hc : c = '.'
      · simp [hc] at h
        cases h
        simp [hc]
      · simp [hc] at h

theorem lastDotIdx_append (l m : List Char) (j : Nat) (hm : lastDotIdx m = some j) :
    lastDotIdx (l ++ m) = some (l.length + j) := by
  induction l with
  | nil => simpa using hm
  | cons c cs ih =>
    have hstep : lastDotIdx ((c :: cs) ++ m) = some (cs.length + j + 1) := by
      show (match lastDotIdx (cs ++ m) with
        | some i => some (i + 1)
        | none => if c = '.' then some 0 else none) = some (cs.length + j + 1)
      rw [ih]
    rw [hstep, List.length_cons]
    congr 1
    omega

theorem lastDotIdx_txt : lastDotIdx ('.' :: 't' :: 'x' :: 't' :: []) = some 0 := by
  decide

/-- Appending the fixed `.txt` suffix to a nonempty name and taking the stem
recovers the name. -/
theorem pyStemL_append_txt (n : List Char) (hn : n ≠ []) :
    pyStemL (n ++ ('.' :: 't' :: 'x' :: 't' :: [])) = n := by
  have hidx : lastDotIdx (n ++ ('.' :: 't' :: 'x' :: 't' :: [])) = some (n.length + 0) :=
    lastDotIdx_append n _ 0 lastDotIdx_txt
  have hlen : 0 < n.length := List.length_pos.mpr hn
  have hcond : 0 < n.length + 0 ∧ n.length + 0 + 1 <
      (n ++ ('.' :: 't' :: 'x' :: 't' :: [])).length := by
    rw [List.length_append]
    simp only [List.length_cons]
    omega
  simp only [pyStemL, hidx]
  rw [if_pos hcond]
  simp [List.take_left]

/-- The final component splits as stem followed by suffix. -/
theorem pyStemL_append_pySuffixL (name : List Char) :
    pyStemL name ++ pySuffixL name = name := by
  unfold pyStemL pySuffixL
  cases h : lastDotIdx name with
  | none => simp
  | some i =>
    by_cases hc : 0 < i ∧ i + 1 < name.length
    · simp [hc, List.take_append_drop]
    · simp [hc]

/-- The suffix is empty or starts with a dot. -/
theorem pySuffixL_nil_or_dot (name : List Char) :
    pySuffixL name = [] ∨ (pySuffixL name).head? = some '.' := by
  unfold pySuffixL
  cases h : lastDotIdx name with
  | none => exact Or.inl rfl
  | some i =>
    by_cases hc : 0 < i ∧ i + 1 < name.length
    · right
      change (if 0 < i ∧ i + 1 < name.length then List.drop i name else []).head? = some '.'
      rw [if_pos hc]
      have hget := lastDotIdx_isSome_get name i h
      rw [List.head?_drop]
      simpa using hget
    · exact Or.inl (by simp [hc])

theorem splitOnChar_of_not_mem (sep : Char) (l : List Char) (h : ¬ sep ∈ l) :
    splitOnChar sep l = [l] := by
  induction l with
  | nil => rfl
  | cons c cs ih =>
    have hc : ¬ c = sep := fun hcc => h (by simp [hcc])
    have hcs : ¬ sep ∈ cs := fun hm => h (by simp [hm])
    simp only [splitOnChar, hc, ite_false, ih hcs]

/-! ### Configuration

`Config.__init__` derives every location from the data directory:
`text_dir = data_dir / '_text'`, `text_suffix = '.txt'`,
`md5sum_file = text_dir / '.md5sums.txt'`. -/

structure Config where
  data_dir : Path
deriving DecidableEq

def Config.text_dir (cfg : Config) : Path := cfg.data_dir ++ ["_text".toList]

def Config.text_suffix (_ : Config) : Name := ".txt".toList

def Config.md5sum_file (cfg : Config) : Path := cfg.text_dir ++ [".md5sums.txt".toList]

/-- Python exceptions that the embedded fragment can raise. -/
inductive PyErr where
  /-- `AttributeError`, e.g. calling `.open()` on a `str`. -/
  | attributeError
  /-- `IOError` and friends: a file could not be opened or read. -/
  | ioError
  /-- `subprocess.CalledProcessError`: the external OCR process exited
  non-zero. -/
  | calledProcessError
deriving DecidableEq, Repr

/-- A dynamically typed Python value flowing into `get_md5sum`: the call sites
pass either a `pathlib.Path` or a plain `str`. -/
inductive PyVal where
  | path (p : Path)
  | str (s : Name)
deriving DecidableEq

/-- The external collaborators, as pure oracles:
* `md5` — the md5 hex digest of a byte string;
* `mime` — libmagic content sniffing (`magic.from_file(..., mime=True)`);
* `ocr` — the tesseract container run on one image file's bytes; `none`
  models a non-zero exit status of the external process;
* `pdfPages` — `pdf2image.convert_from_path`: the ordered page images of a
  pdf byte string. -/
structure Ext where
  md5 : Content → Name
  mime : Content → Name
  ocr : Content → Option Name
  pdfPages : Content → List Content

/-! ### `get_md5sum`, `is_not_imported`, `add_md5sum` -/

/-- `get_md5sum(file_path)`: opens the file in binary mode and streams it
through the digest.  Called on a `str` (as `import_file` does via
`add_md5sum(config, file_name)`) the very first attribute access
`file_path.open` raises `AttributeError`. -/
def get_md5sum (md5 : Content → Name) (fs : FS) : PyVal → Except PyErr Name
  | .str _ => .error .attributeError
  | .path p =>
    match fread fs p with
    | none => .error .ioError
    | some c => .ok (md5 c)

/-- `is_not_imported(config, file_path)`: reads the ledger line by line,
strips each line, hashes the candidate file, and tests non-membership. -/
def is_not_imported (md5 : Content → Name) (fs : FS) (cfg : Config) (file_path : Path) :
    Except PyErr Bool :=
  match fread fs cfg.md5sum_file with
  | none => .error .ioError
  | some ledger =>
    match get_md5sum md5 fs (.path file_path) with
    | .error e => .error e
    | .ok s => .ok (decide (¬ s ∈ readlinesStripped ledger))

/-- `add_md5sum(config, file_path)`: hashes the argument and appends the
digest plus a newline to the ledger file (append mode creates the file when
missing). -/
def add_md5sum (md5 : Content → Name) (cfg : Config) (fs : FS) (v : PyVal) :
    Except PyErr Unit × FS :=
  match get_md5sum md5 fs v with
  | .error e => (.error e, fs)
  | .ok s =>
    (.ok (), fwrite fs cfg.md5sum_file (((fread fs cfg.md5sum_file).getD []) ++ s ++ ['\n']))

/-! ### Content extraction -/

/-- `run_tesseract(config, input_file_path)`: mounts the input file into the
tesseract container and captures stdout; a non-zero exit of the external
process raises `CalledProcessError` from `subprocess.check_output`. -/
def run_tesseract (ext : Ext) (fs : FS) (input_file_path : Path) : Except PyErr Content :=
  match fread fs input_file_path with
  | none => .error .calledProcessError
  | some img =>
    match ext.ocr img with
    | none => .error .calledProcessError
    | some out => .ok out

/-- The page image file name `output_{num}.jpg`. -/
def outputImageName (num : Nat) : Name :=
  "output_".toList ++ natStr num ++ ".jpg".toList

/-- The scoped temporary workspace used by `process_pdf`
(`tempfile.TemporaryDirectory()`). -/
def tempDirPath : Path := ["tmp".toList, "tmp_docspace".toList]

/-- `convert_pdf_to_images(input_path, tempdir)`: rasterizes every page and
saves page `num` as `tempdir/output_{num}.jpg`, returning the paths in page
order.  The returned `FS` holds exactly the files written into the temporary
workspace. -/
def convert_pdf_to_images (ext : Ext) (input : Content) (tempdir : Path) :
    List Path × FS :=
  let images := ext.pdfPages input
  let paths := (List.range images.length).map (fun num => tempdir ++ [outputImageName num])
  (paths, List.zip paths images)

/-- The `for path in image_paths: content += run_tesseract(...)` loop of
`process_pdf`; the first OCR failure aborts the loop. -/
def ocrPages (ext : Ext) (fs : FS) : List Path → Except PyErr Content
  | [] => .ok []
  | p :: ps =>
    match run_tesseract ext fs p with
    | .error e => .error e
    | .ok t =>
      match ocrPages ext fs ps with
      | .error e => .error e
      | .ok rest => .ok (t ++ rest)

/-- `process_pdf(config, input_path)`: rasterize all pages into a scoped
temporary directory, then OCR each page in order and concatenate. -/
def process_pdf (ext : Ext) (input : Content) : Except PyErr Content :=
  let r := convert_pdf_to_images ext input tempDirPath
  ocrPages ext r.2 r.1

/-- `get_content(config, file_path)`: sniffs the mime type of the file's
content and dispatches; an unknown mime type leaves the content empty. -/
def get_content (ext : Ext) (fs : FS) (file_path : Path) : Except PyErr Content :=
  match fread fs file_path with
  | none => .error .ioError
  | some bytes =>
    let m := ext.mime bytes
    if m = "text/plain".toList then .ok bytes
    else if m = "application/pdf".toList then process_pdf ext bytes
    else if m = "image/png".toList then run_tesseract ext fs file_path
    else if m = "image/jpeg".toList then run_tesseract ext fs file_path
    else .ok []

/-! ### The archive store -/

/-- The path used by `write_content_for_file`:
`text_dir / (source_file.name + text_suffix)`. -/
def textArtifactPath (cfg : Config) (source_file : Path) : Path :=
  cfg.text_dir ++ [pathName source_file ++ cfg.text_suffix]

/-- `write_content_for_file(config, source_file, content)`: creates parent
folders (a no-op here) and writes the text artifact, overwriting any previous
one. -/
def write_content_for_file (cfg : Config) (fs : FS) (source_file : Path) (content : Content) :
    FS :=
  fwrite fs (textArtifactPath cfg source_file) content

/-- The candidate file name tried by `import_file`'s collision loop at
counter `k`: the original name for `k = 0`, and
`file_path.stem + f'_{k}' + ''.join(file_path.suffixes)` afterwards. -/
def collisionName (file_path : Path) (k : Nat) : Name :=
  if k = 0 then pathName file_path
  else
    pyStemL (pathName file_path) ++ '_' :: natStr k ++ (pySuffixesL (pathName file_path)).flatten

/-- The `while destination.exists()` loop: starting at counter `k`, with
`fuel` iterations left, return the first counter whose destination name is
free. -/
def freeIndexAux (fs : FS) (cfg : Config) (file_path : Path) : Nat → Nat → Nat
  | 0, k => k
  | fuel + 1, k =>
    if fexists fs (cfg.data_dir ++ [collisionName file_path k]) then
      freeIndexAux fs cfg file_path fuel (k + 1)
    else k

/-- The counter value the collision loop stops at.  `fs.length + 1`
iterations always suffice, since the candidate names are pairwise distinct
and the file system holds only `fs.length` files. -/
def freeIndex (fs : FS) (cfg : Config) (file_path : Path) : Nat :=
  freeIndexAux fs cfg file_path (fs.length + 1) 0

/-- `import_file(config, file_path, content)`: picks the first free
destination name, copies the source there, writes the text artifact for the
destination, and finally calls `add_md5sum(config, file_name)` — passing the
bare `str` file name, exactly as the source does. -/
def import_file (md5 : Content → Name) (cfg : Config) (fs : FS) (file_path : Path)
    (content : Content) : Except PyErr Unit × FS :=
  let file_name := collisionName file_path (freeIndex fs cfg file_path)
  let destination := cfg.data_dir ++ [file_name]
  match fread fs file_path with
  | none => (.error .ioError, fs)
  | some c =>
    let fs1 := fwrite fs destination c
    let fs2 := write_content_for_file cfg fs1 destination content
    add_md5sum md5 cfg fs2 (.str file_name)

/-- `import_files(config, file_paths)`: for each existing path, check the
ledger, extract, and import.  There is no exception handler around the loop
body: the first error propagates and ends the whole run, leaving the file
system in whatever state it had reached. -/
def import_files (ext : Ext) (cfg : Config) : List Path → FS → Except PyErr Unit × FS
  | [], fs => (.ok (), fs)
  | p :: ps, fs =>
    if fexists fs p then
      match is_not_imported ext.md5 fs cfg p with
      | .error e => (.error e, fs)
      | .ok true =>
        match get_content ext fs p with
        | .error e => (.error e, fs)
        | .ok content =>
          match import_file ext.md5 cfg fs p content with
          | (.error e, fs') => (.error e, fs')
          | (.ok _, fs') => import_files ext cfg ps fs'
      | .ok false => import_files ext cfg ps fs
    else import_files ext cfg ps fs

/-! ### Rescan -/

/-- `root` is a prefix of `p`: `p` lies at or below the directory `root`. -/
def pathIsUnder : Path → Path → Bool
  | [], _ => true
  | _ :: _, [] => false
  | r :: rs, q :: qs => if r = q then pathIsUnder rs qs else false

/-- `Path(root).glob('**/*')` yields `p`: `p` lies strictly below `root`
(`pathlib`'s glob, unlike the `glob` module, also matches names starting with
a dot). -/
def globStrictlyUnder (root p : Path) : Bool :=
  pathIsUnder root p && !(decide (p = root))

/-- `Config.setup`: create the directory layout (no-ops here) and touch the
ledger file when it does not exist. -/
def Config.setup (cfg : Config) (fs : FS) : FS :=
  match fread fs cfg.md5sum_file with
  | some _ => fs
  | none => fwrite fs cfg.md5sum_file []

/-- The per-file loop of `rescan_all`: extract content and write the text
artifact; the first error ends the run. -/
def rescan_files (ext : Ext) (cfg : Config) : List Path → FS → Except PyErr Unit × FS
  | [], fs => (.ok (), fs)
  | p :: ps, fs =>
    match get_content ext fs p with
    | .error e => (.error e, fs)
    | .ok content => rescan_files ext cfg ps (write_content_for_file cfg fs p content)

/-- `rescan_all(config)`: after the confirmation gate, delete the whole text
cache tree, recreate the layout (which recreates an empty ledger, because the
ledger lives inside the text cache), enumerate every file under the data
directory excluding the text directory and its contents, and regenerate each
text artifact.  No ledger entry is ever re-added. -/
def rescan_all (ext : Ext) (cfg : Config) (confirmed : Bool) (fs : FS) :
    Except PyErr Unit × FS :=
  if confirmed then
    let fs1 := fs.filter (fun e => !(pathIsUnder cfg.text_dir e.1))
    let fs2 := cfg.setup fs1
    let pathlist := (fs2.map Prod.fst).filter
      (fun p => globStrictlyUnder cfg.data_dir p && !(pathIsUnder cfg.text_dir p))
    rescan_files ext cfg pathlist fs2
  else (.ok (), fs)

/-! ### Search-layer path mapping -/

/-- `text_file_path_to_doc_path(config, textfilepath)`: take the final
component of the text file path and drop the trailing suffix
(`Path(filename).with_suffix('')`), yielding a single-component path. -/
def text_file_path_to_doc_path (_ : Config) (textfilepath : Path) : Path :=
  [pyStemL (pathName textfilepath)]

/-- `docpath_to_textfilepath(config, docfilepath)`:
`Path.joinpath(text_dir, f'{docfilepath}.txt')` — the document path is
rendered to a string, `.txt` is appended, and the result is parsed back into
components under the text directory. -/
def docpath_to_textfilepath (cfg : Config) (docfilepath : Path) : Path :=
  cfg.text_dir ++ splitOnChar '/' (renderPath docfilepath ++ ".txt".toList)

/-! ### The incremental hash model (for the fingerprint claim)

`hashlib.md5` exposes an incremental accumulator; `update` concatenates and
feeding the empty chunk is the identity.  `get_md5sum` streams the file in
8 KiB chunks through it. -/

structure IncrementalHash (σ : Type) where
  init : σ
  update : σ → Content → σ
  hexdigest : σ → Name
  update_append : ∀ s a b, update s (a ++ b) = update (update s a) b
  update_nil : ∀ s, update s [] = s

/-- The chunks produced by the `while chunk := f.read(n)` loop; `fuel`
bounds the number of reads (the content length always suffices for a
positive chunk size). -/
def chunksOfAux (n : Nat) : Nat → Content → List Content
  | 0, _ => []
  | _, [] => []
  | fuel + 1, c :: cs => ((c :: cs).take n) :: chunksOfAux n fuel ((c :: cs).drop n)

def chunksOf (n : Nat) (c : Content) : List Content :=
  chunksOfAux n c.length c

/-- `get_md5sum` on content `c`, parameterized by the chunk size (the source
fixes it to 8192). -/
def get_md5sum_chunked {σ : Type} (h : IncrementalHash σ) (n : Nat) (c : Content) : Name :=
  h.hexdigest ((chunksOf n c).foldl h.update h.init)

/-! ### Properties of the collision loop -/

theorem collisionName_injective (fp : Path) : Function.Injective (collisionName fp) := by
  intro j k hjk
  by_cases hj : j = 0 <;> by_cases hk : k = 0
  · omega
  · exfalso
    rw [collisionName, collisionName, if_pos hj, if_neg hk] at hjk
    rw [List.append_assoc, List.cons_append] at hjk
    have h2 : pyStemL (pathName fp) ++ pySuffixL (pathName fp) =
        pyStemL (pathName fp) ++
          '_' :: (natStr k ++ (pySuffixesL (pathName fp)).flatten) := by
      rw [pyStemL_append_pySuffixL]
      exact hjk
    have htail := @List.append_cancel_left Char (pyStemL (pathName fp)) _ _ h2
    rcases pySuffixL_nil_or_dot (pathName fp) with hnil | hdot
    · rw [hnil] at htail
      exact List.cons_ne_nil _ _ htail.symm
    · rw [htail] at hdot
      simp at hdot
  · exfalso
    rw [collisionName, collisionName, if_neg hj, if_pos hk] at hjk
    rw [List.append_assoc, List.cons_append] at hjk
    have h2 : pyStemL (pathName fp) ++
          '_' :: (natStr j ++ (pySuffixesL (pathName fp)).flatten) =
        pyStemL (pathName fp) ++ pySuffixL (pathName fp) := by
      rw [pyStemL_append_pySuffixL]
      exact hjk
    have htail := @List.append_cancel_left Char (pyStemL (pathName fp)) _ _ h2
    rcases pySuffixL_nil_or_dot (pathName fp) with hnil | hdot
    · rw [hnil] at htail
      exact List.cons_ne_nil _ _ htail
    · rw [← htail] at hdot
      simp at hdot
  · rw [collisionName, collisionName, if_neg hj, if_neg hk] at hjk
    have h1 := @List.append_cancel_right Char _ ((pySuffixesL (pathName fp)).flatten) _ hjk
    have h2 := @List.append_cancel_left Char (pyStemL (pathName fp)) _ _ h1
    injection h2 with _ h3
    exact natStr_injective h3

/-- Among the first `fs.length + 1` candidate destinations one is always
free: they are pairwise distinct and the file system holds only `fs.length`
files. -/
theorem exists_free_collision (fs : FS) (cfg : Config) (fp : Path) :
    ∃ j, j ≤ fs.length ∧ fexists fs (cfg.data_dir ++ [collisionName fp j]) = false := by
  by_contra hfull
  push_neg at hfull
  have hocc : ∀ j, j ≤ fs.length → fexists fs (cfg.data_dir ++ [collisionName fp j]) = true := by
    intro j hj
    have := hfull j hj
    revert this
    cases fexists fs (cfg.data_dir ++ [collisionName fp j]) <;> simp
  have hinj : Function.Injective (fun j => cfg.data_dir ++ [collisionName fp j]) := by
    intro a b hab
    have := List.append_cancel_left hab
    simp only [List.cons.injEq] at this
    exact collisionName_injective fp this.1
  set l := (List.range (fs.length + 1)).map (fun j => cfg.data_dir ++ [collisionName fp j]) with hl
  have hnodup : l.Nodup := (List.nodup_range _).map hinj
  have hsub : l.toFinset ⊆ (fs.map Prod.fst).toFinset := by
    intro p hp
    rw [List.mem_toFinset] at hp ⊢
    rw [hl, List.mem_map] at hp
    obtain ⟨j, hj, rfl⟩ := hp
    rw [List.mem_range] at hj
    exact (fexists_iff_mem_keys fs _).mp (hocc j (by omega))
  have hcard1 : l.toFinset.card = fs.length + 1 := by
    rw [List.toFinset_card_of_nodup hnodup, hl, List.length_map, List.length_range]
  have hcard2 : (fs.map Prod.fst).toFinset.card ≤ fs.length := by
    calc (fs.map Prod.fst).toFinset.card ≤ (fs.map Prod.fst).length := List.toFinset_card_le _
    _ = fs.length := List.length_map _ _
  have := Finset.card_le_card hsub
  omega

theorem freeIndexAux_ge (fs : FS) (cfg : Config) (fp : Path) :
    ∀ fuel k, k ≤ freeIndexAux fs cfg fp fuel k := by
  intro fuel
  induction fuel with
  | zero => intro k; simp [freeIndexAux]
  | succ fuel ih =>
    intro k
    rw [freeIndexAux]
    split
    · exact le_trans (by omega) (ih (k + 1))
    · exact le_rfl

/-- Every counter skipped by the loop named an occupied destination. -/
theorem freeIndexAux_skipped_occupied (fs : FS) (cfg : Config) (fp : Path) :
    ∀ fuel k j, k ≤ j → j < freeIndexAux fs cfg fp fuel k →
      fexists fs (cfg.data_dir ++ [collisionName fp j]) = true := by
  intro fuel
  induction fuel with
  | zero =>
    intro k j hkj hj
    rw [freeIndexAux] at hj
    omega
  | succ fuel ih =>
    intro k j hkj hj
    rw [freeIndexAux] at hj
    by_cases hocc : fexists fs (cfg.data_dir ++ [collisionName fp k]) = true
    · rw [if_pos hocc] at hj
      by_cases hjk : j = k
      · rw [hjk]; exact hocc
      · exact ih (k + 1) j (by omega) hj
    · rw [if_neg hocc] at hj
      omega

/-- If a free counter lies within the remaining fuel, the loop stops at a
free one. -/
theorem freeIndexAux_stops_free (fs : FS) (cfg : Config) (fp : Path) :
    ∀ fuel k, (∃ j, k ≤ j ∧ j < k + fuel ∧
        fexists fs (cfg.data_dir ++ [collisionName fp j]) = false) →
      fexists fs (cfg.data_dir ++ [collisionName fp (freeIndexAux fs cfg fp fuel k)]) = false := by
  intro fuel
  induction fuel with
  | zero =>
    intro k ⟨j, hkj, hj, _⟩
    omega
  | succ fuel ih =>
    intro k ⟨j, hkj, hj, hfree⟩
    rw [freeIndexAux]
    by_cases hocc : fexists fs (cfg.data_dir ++ [collisionName fp k]) = true
    · rw [if_pos hocc]
      refine ih (k + 1) ⟨j, ?_, by omega, hfree⟩
      rcases Nat.eq_or_lt_of_le hkj with h | h
      · subst h
        rw [hocc] at hfree
        cases hfree
      · omega
    · rw [if_neg hocc]
      revert hocc
      cases fexists fs (cfg.data_dir ++ [collisionName fp k]) <;> simp

/-- The collision loop's result: the destination is free and every smaller
counter named an occupied destination. -/
theorem freeIndex_spec (fs : FS) (cfg : Config) (fp : Path) :
    fexists fs (cfg.data_dir ++ [collisionName fp (freeIndex fs cfg fp)]) = false ∧
      ∀ j, j < freeIndex fs cfg fp →
        fexists fs (cfg.data_dir ++ [collisionName fp j]) = true := by
  constructor
  · obtain ⟨j, hj, hfree⟩ := exists_free_collision fs cfg fp
    exact freeIndexAux_stops_free fs cfg fp (fs.length + 1) 0 ⟨j, by omega, by omega, hfree⟩
  · intro j hj
    exact freeIndexAux_skipped_occupied fs cfg fp (fs.length + 1) 0 j (by omega) hj

/-! ### General lemmas about the import pipeline -/

theorem pathName_append_singleton (l : Path) (x : Name) : pathName (l ++ [x]) = x := by
  simp [pathName]

/-- With a readable source, `import_file` copies to the first free
destination, writes that destination's text artifact, and then fails inside
`add_md5sum`, because the source passes the bare `str` file name to a
function that opens its argument as a `Path`. -/
theorem import_file_eq (md5 : Content → Name) (cfg : Config) (fs : FS) (fp : Path)
    (content c : Content) (h : fread fs fp = some c) :
    import_file md5 cfg fs fp content =
      (.error .attributeError,
        write_content_for_file cfg
          (fwrite fs (cfg.data_dir ++ [collisionName fp (freeIndex fs cfg fp)]) c)
          (cfg.data_dir ++ [collisionName fp (freeIndex fs cfg fp)]) content) := by
  unfold import_file
  rw [h]
  rfl

/-- The destination of a copy is never a text artifact path (they have
different lengths below the data directory). -/
theorem dest_ne_textArtifactPath (cfg : Config) (n : Name) (p : Path) :
    cfg.data_dir ++ [n] ≠ textArtifactPath cfg p := by
  intro h
  have := congrArg List.length h
  simp [textArtifactPath, Config.text_dir] at this

/-- `root` is a prefix of `root ++ t`. -/
theorem pathIsUnder_append (r t : Path) : pathIsUnder r (r ++ t) = true := by
  induction r with
  | nil => rfl
  | cons x xs ih => simp [pathIsUnder, ih]

theorem fread_filter_none (fs : FS) (P : Path × Content → Bool) (p : Path)
    (h : ∀ c, P (p, c) = false) : fread (fs.filter P) p = none := by
  induction fs with
  | nil => rfl
  | cons e rest ih =>
    by_cases hp : e.1 = p
    · have he : P e = false := by
        rw [show e = (p, e.2) by rw [← hp]]
        exact h e.2
      simp [List.filter, he, ih]
    · by_cases hP : P e = true
      · simp [List.filter, hP, fread, hp, ih]
      · simp [List.filter, hP, ih]

theorem mem_keys_of_mem_filter_keys (fs : FS) (P : Path × Content → Bool) (p : Path)
    (h : p ∈ (fs.filter P).map Prod.fst) : p ∈ fs.map Prod.fst := by
  rw [List.mem_map] at h ⊢
  obtain ⟨e, he, rfl⟩ := h
  exact ⟨e, List.mem_of_mem_filter he, rfl⟩

/-- A text artifact whose document is not named `.md5sums` is stored away
from the ledger file. -/
theorem textArtifactPath_ne_ledger (cfg : Config) (p : Path)
    (h : pathName p ≠ ".md5sums".toList) : textArtifactPath cfg p ≠ cfg.md5sum_file := by
  intro heq
  unfold textArtifactPath Config.md5sum_file at heq
  have h1 := @List.append_cancel_left Name cfg.text_dir _ _ heq
  have h2 : pathName p ++ cfg.text_suffix = ".md5sums.txt".toList := by
    injection h1
  have h3 : (".md5sums.txt".toList : List Char) = ".md5sums".toList ++ ".txt".toList := by
    decide
  rw [h3] at h2
  exact h (@List.append_cancel_right Char _ (".txt".toList) _ (by exact h2))

/-- `rescan_files` never touches the ledger when no processed document is
named `.md5sums`. -/
theorem rescan_files_ledger (ext : Ext) (cfg : Config) :
    ∀ (pl : List Path) (fs : FS),
      (∀ p ∈ pl, pathName p ≠ ".md5sums".toList) →
      fread (rescan_files ext cfg pl fs).2 cfg.md5sum_file = fread fs cfg.md5sum_file := by
  intro pl
  induction pl with
  | nil => intro fs _; rfl
  | cons p ps ih =>
    intro fs hname
    rw [rescan_files]
    cases hg : get_content ext fs p with
    | error e => rfl
    | ok content =>
      rw [ih _ (fun q hq => hname q (by simp [hq]))]
      unfold write_content_for_file
      exact fread_fwrite_ne _ _ _ _
        (Ne.symm (textArtifactPath_ne_ledger cfg p (hname p (by simp))))

/-- After the wipe-and-recreate phase of `rescan_all`, the ledger file exists
and is empty. -/
theorem ledger_after_wipe (cfg : Config) (fs : FS) :
    fread (cfg.setup (fs.filter (fun e => !(pathIsUnder cfg.text_dir e.1))))
      cfg.md5sum_file = some [] := by
  have hgone : fread (fs.filter (fun e => !(pathIsUnder cfg.text_dir e.1)))
      cfg.md5sum_file = none := by
    refine fread_filter_none fs _ cfg.md5sum_file (fun c => ?_)
    have : pathIsUnder cfg.text_dir cfg.md5sum_file = true :=
      pathIsUnder_append cfg.text_dir [".md5sums.txt".toList]
    simp [this]
  unfold Config.setup
  rw [hgone]
  exact fread_fwrite_self _ _ _

/-! ### General lemmas about pdf processing -/

theorem outputImageName_injective : Function.Injective outputImageName := by
  intro a b h
  unfold outputImageName at h
  have h1 := @List.append_cancel_right Char _ (".jpg".toList) _ h
  have h2 := @List.append_cancel_left Char ("output_".toList) _ _ h1
  exact natStr_injective h2

/-- Reading back from the freshly written page files: the zip of distinct
paths with images behaves as a map. -/
theorem fread_zip_self (paths : List Path) :
    ∀ (images : List Content), paths.Nodup →
      ∀ pr ∈ List.zip paths images, fread (List.zip paths images) pr.1 = some pr.2 := by
  induction paths with
  | nil => intro images _ pr hpr; simp [List.zip] at hpr
  | cons p ps ih =>
    intro images hnodup pr hpr
    cases images with
    | nil => simp at hpr
    | cons im ims =>
      rw [List.zip_cons_cons] at hpr ⊢
      rcases List.mem_cons.mp hpr with rfl | htail
      · simp [fread]
      · have hp1 : pr.1 ∈ ps := by
          obtain ⟨a, b, rfl⟩ : ∃ a b, pr = (a, b) := ⟨pr.1, pr.2, rfl⟩
          exact (List.of_mem_zip htail).1
        have hne : p ≠ pr.1 := by
          intro hcontra
          rw [hcontra] at hnodup
          exact (List.nodup_cons.mp hnodup).1 hp1
        rw [fread, if_neg hne]
        exact ih ims (List.nodup_cons.mp hnodup).2 pr htail

theorem run_tesseract_eq (ext : Ext) (fs : FS) (p : Path) (img : Content) (t : Name)
    (hp : fread fs p = some img) (ht : ext.ocr img = some t) :
    run_tesseract ext fs p = .ok t := by
  unfold run_tesseract
  rw [hp]
  show (match ext.ocr img with
    | none => (Except.error PyErr.calledProcessError : Except PyErr Content)
    | some out => Except.ok out) = .ok t
  rw [ht]

/-- The OCR loop over distinct readable page files succeeds and concatenates
the page texts in order. -/
theorem ocrPages_ok (ext : Ext) (fs : FS) :
    ∀ (paths : List Path) (images : List Content),
      (∀ pr ∈ List.zip paths images, fread fs pr.1 = some pr.2) →
      paths.length = images.length →
      (∀ img ∈ images, (ext.ocr img).isSome) →
      ocrPages ext fs paths =
        .ok (images.foldr (fun img acc => (ext.ocr img).getD [] ++ acc) []) := by
  intro paths
  induction paths with
  | nil =>
    intro images _ hlen _
    cases images with
    | nil => rfl
    | cons im ims => simp at hlen
  | cons p ps ih =>
    intro images hzip hlen hocr
    cases images with
    | nil => simp at hlen
    | cons im ims =>
      have hp : fread fs p = some im := by
        have := hzip (p, im) (by rw [List.zip_cons_cons]; exact List.mem_cons_self _ _)
        exact this
      obtain ⟨t, ht⟩ := Option.isSome_iff_exists.mp (hocr im (List.mem_cons_self _ _))
      have hrec := ih ims
        (fun pr hpr => hzip pr (by rw [List.zip_cons_cons]; exact List.mem_cons_of_mem _ hpr))
        (by simpa using hlen)
        (fun img himg => hocr img (List.mem_cons_of_mem _ himg))
      rw [ocrPages]
      rw [run_tesseract_eq ext fs p im t hp ht, hrec]
      simp [ht]

/-! ### General lemma about chunked hashing -/

theorem foldl_chunksOfAux {σ : Type} (h : IncrementalHash σ) (n : Nat) (hn : 1 ≤ n) :
    ∀ (fuel : Nat) (c : Content) (s : σ), c.length ≤ fuel →
      (chunksOfAux n fuel c).foldl h.update s = h.update s c := by
  intro fuel
  induction fuel with
  | zero =>
    intro c s hc
    have : c = [] := List.eq_nil_of_length_eq_zero (by omega)
    subst this
    simp [chunksOfAux, h.update_nil]
  | succ fuel ih =>
    intro c s hc
    cases c with
    | nil => simp [chunksOfAux, h.update_nil]
    | cons x xs =>
      have hc' : xs.length + 1 ≤ fuel + 1 := by simpa using hc
      rw [chunksOfAux, List.foldl_cons]
      rw [ih ((x :: xs).drop n) _ (by simp [List.length_drop]; omega)]
      rw [← h.update_append, List.take_append_drop]

/-! ### Rescan: assembled lemmas -/

theorem rescan_all_true_eq (ext : Ext) (cfg : Config) (fs : FS) :
    rescan_all ext cfg true fs =
      rescan_files ext cfg
        (((cfg.setup (fs.filter (fun e => !(pathIsUnder cfg.text_dir e.1)))).map Prod.fst).filter
          (fun p => globStrictlyUnder cfg.data_dir p && !(pathIsUnder cfg.text_dir p)))
        (cfg.setup (fs.filter (fun e => !(pathIsUnder cfg.text_dir e.1)))) := rfl

/-- Every path enumerated by the rescan loop is a key of the original file
system, so its name obeys any name condition assumed of the archive. -/
theorem rescan_pathlist_names (cfg : Config) (fs : FS)
    (hname : ∀ p ∈ fs.map Prod.fst, pathName p ≠ ".md5sums".toList) :
    ∀ p ∈ ((cfg.setup (fs.filter (fun e => !(pathIsUnder cfg.text_dir e.1)))).map Prod.fst).filter
        (fun p => globStrictlyUnder cfg.data_dir p && !(pathIsUnder cfg.text_dir p)),
      pathName p ≠ ".md5sums".toList := by
  intro p hp
  rw [List.mem_filter] at hp
  obtain ⟨hmem, hcond⟩ := hp
  have hgone : fread (fs.filter (fun e => !(pathIsUnder cfg.text_dir e.1)))
      cfg.md5sum_file = none := by
    refine fread_filter_none fs _ cfg.md5sum_file (fun c => ?_)
    have ht : pathIsUnder cfg.text_dir cfg.md5sum_file = true :=
      pathIsUnder_append cfg.text_dir [".md5sums.txt".toList]
    simp [ht]
  unfold Config.setup at hmem
  rw [hgone] at hmem
  simp only [fwrite, List.map_cons] at hmem
  rcases List.mem_cons.mp hmem with heq | htl
  · exfalso
    subst heq
    have ht : pathIsUnder cfg.text_dir cfg.md5sum_file = true :=
      pathIsUnder_append cfg.text_dir [".md5sums.txt".toList]
    simp [ht] at hcond
  · exact hname p (mem_keys_of_mem_filter_keys _ _ _ (mem_keys_of_mem_filter_keys _ _ _ htl))

/-! ### Concrete fixtures

A small world with data directory `d`.  The digest oracle prefixes an `h`,
so it is injective on contents; the text oracle declares everything
`text/plain`. -/

def cfgD : Config := ⟨["d".toList]⟩

def extText : Ext :=
  ⟨fun c => 'h' :: c, fun _ => "text/plain".toList, fun _ => none, fun _ => []⟩

def srcA : Path := ["s".toList, "a.txt".toList]

def fsA : FS := [(cfgD.md5sum_file, []), (srcA, ['X'])]

def fsA1 : FS := (import_files extText cfgD [srcA] fsA).2

def fsA2 : FS := (import_files extText cfgD [srcA] fsA1).2

def srcT1 : Path := ["s1".toList, "a.tar.gz".toList]

def srcT2 : Path := ["s2".toList, "a.tar.gz".toList]

def fsT : FS := [(cfgD.md5sum_file, []), (srcT1, ['X']), (srcT2, ['Y'])]

def fsT1 : FS := (import_files extText cfgD [srcT1] fsT).2

def fsT2 : FS := (import_files extText cfgD [srcT2] fsT1).2

def docSub1 : Path := ["d".toList, "sub1".toList, "f.txt".toList]

def docSub2 : Path := ["d".toList, "sub2".toList, "f.txt".toList]

def fsN : FS := [(cfgD.md5sum_file, []), (docSub1, ['A']), (docSub2, ['B'])]

/-- Mime oracle that recognizes the one-byte content `P` as a png and
everything else as plain text; its OCR always exits non-zero. -/
def extMixed : Ext :=
  ⟨fun c => 'h' :: c,
   fun c => if c = ['P'] then "image/png".toList else "text/plain".toList,
   fun _ => none, fun _ => []⟩

def srcBad : Path := ["s".toList, "scan.png".toList]

def srcGood : Path := ["s".toList, "good.txt".toList]

def fsMix : FS := [(cfgD.md5sum_file, []), (srcBad, ['P']), (srcGood, ['G'])]

/-- A pdf world: every pdf has the two pages `p` and `q`, and OCR prefixes
an `o` to a page image. -/
def extPdf : Ext :=
  ⟨fun c => 'h' :: c, fun _ => "application/pdf".toList,
   fun img => some ('o' :: img), fun _ => [['p'], ['q']]⟩

/-- A concrete incremental hash: the accumulator is the byte stream itself. -/
def accHash : IncrementalHash Content :=
  ⟨[], fun s c => s ++ c, fun s => s,
   fun s a b => (List.append_assoc s a b).symm, fun s => List.append_nil s⟩

def docHidden : Path := ["d".toList, ".md5sums".toList]

def docPlain : Path := ["d".toList, "a.txt".toList]

def fsH : FS := [(cfgD.md5sum_file, "old".toList),
  (docHidden, 'h' :: 'X' :: '\n' :: []), (docPlain, ['X'])]

/-! ### Shared helper lemmas for error propagation -/

theorem is_not_imported_true (md5 : Content → Name) (fs : FS) (cfg : Config) (src : Path)
    (c L : Content) (h1 : fread fs src = some c) (h2 : fread fs cfg.md5sum_file = some L)
    (h3 : ¬ md5 c ∈ readlinesStripped L) :
    is_not_imported md5 fs cfg src = .ok true := by
  unfold is_not_imported
  rw [h2]
  show (match get_md5sum md5 fs (.path src) with
    | .error e => (.error e : Except PyErr Bool)
    | .ok s => .ok (decide (¬ s ∈ readlinesStripped L))) = .ok true
  have hg : get_md5sum md5 fs (.path src) = .ok (md5 c) := by
    show (match fread fs src with
      | none => (Except.error PyErr.ioError : Except PyErr Name)
      | some c => Except.ok (md5 c)) = .ok (md5 c)
    rw [h1]
  rw [hg]
  show Except.ok (decide (¬ md5 c ∈ readlinesStripped L)) = .ok true
  rw [decide_eq_true h3]

/-- A png whose OCR invocation exits non-zero makes `import_files` fail with
`CalledProcessError` before touching the file system, and the remaining batch
is never processed. -/
theorem import_png_failure_aborts (ext : Ext) (cfg : Config) (fs : FS) (src : Path)
    (c L : Content) (rest : List Path)
    (h1 : fread fs src = some c) (h2 : fread fs cfg.md5sum_file = some L)
    (h3 : ¬ ext.md5 c ∈ readlinesStripped L) (h4 : ext.mime c = "image/png".toList)
    (h5 : ext.ocr c = none) :
    import_files ext cfg (src :: rest) fs = (.error .calledProcessError, fs) := by
  have hex : fexists fs src = true := by simp [fexists, h1]
  have hnot := is_not_imported_true ext.md5 fs cfg src c L h1 h2 h3
  have hrt : run_tesseract ext fs src = .error .calledProcessError := by
    unfold run_tesseract
    rw [h1]
    show (match ext.ocr c with
      | none => (Except.error PyErr.calledProcessError : Except PyErr Content)
      | some out => Except.ok out) = .error .calledProcessError
    rw [h5]
  have hgc : get_content ext fs src = .error .calledProcessError := by
    unfold get_content
    rw [h1]
    show (if ext.mime c = "text/plain".toList then (Except.ok c : Except PyErr Content)
      else if ext.mime c = "application/pdf".toList then process_pdf ext c
      else if ext.mime c = "image/png".toList then run_tesseract ext fs src
      else if ext.mime c = "image/jpeg".toList then run_tesseract ext fs src
      else .ok []) = .error .calledProcessError
    rw [h4]
    rw [if_neg (by decide), if_neg (by decide), if_pos rfl]
    exact hrt
  unfold import_files
  rw [hex, if_pos rfl, hnot, hgc]

deriving instance DecidableEq for Except

/-! ### The claims -/

/-- C1 (code bug): importing the same content twice is not idempotent in the
code.  `import_file` passes the bare `str` file name to `add_md5sum`, so
every import dies with `AttributeError` before the ledger append; the second
run therefore re-imports the identical content into `a_1.txt`, leaving two
archived copies of the same bytes and an empty ledger, with no
"already imported" skip. -/
theorem import_twice_duplicates_archive :
    fexists fsA2 (cfgD.data_dir ++ ["a.txt".toList]) = true ∧
    fexists fsA2 (cfgD.data_dir ++ ["a_1.txt".toList]) = true ∧
    fread fsA2 (cfgD.data_dir ++ ["a_1.txt".toList]) =
      fread fsA2 (cfgD.data_dir ++ ["a.txt".toList]) ∧
    fread fsA2 cfgD.md5sum_file = some [] ∧
    (import_files extText cfgD [srcA] fsA1).1 = .error .attributeError := by
  decide

/-- C2 (code bug): a single-file import completes its hash, extraction, copy
and text-artifact write, and then the final `add_md5sum(config, file_name)`
call raises `AttributeError` because `file_name` is a `str`, not a `Path`;
no fingerprint is ever appended to the ledger. -/
theorem import_never_appends_ledger :
    import_files extText cfgD [srcA] fsA = (.error .attributeError, fsA1) ∧
    fread fsA1 (cfgD.data_dir ++ ["a.txt".toList]) = some ['X'] ∧
    fread fsA1 (textArtifactPath cfgD (cfgD.data_dir ++ ["a.txt".toList])) = some ['X'] ∧
    fread fsA1 cfgD.md5sum_file = some [] := by
  decide

/-- C3 (counterexample): the text cache does not mirror the archive tree.
`write_content_for_file` keys the artifact by the base file name only, so
the two nested documents `d/sub1/f.txt` and `d/sub2/f.txt` share the single
artifact path `d/_text/f.txt.txt`; after a rescan the mirrored location
`d/_text/sub1/f.txt.txt` does not exist and the shared artifact holds only
the content of the document processed last. -/
theorem text_artifact_not_mirrored_cex :
    textArtifactPath cfgD docSub1 = textArtifactPath cfgD docSub2 ∧
    fread (rescan_all extText cfgD true fsN).2
      (cfgD.text_dir ++ ["sub1".toList, "f.txt.txt".toList]) = none ∧
    fread (rescan_all extText cfgD true fsN).2
      (cfgD.text_dir ++ ["f.txt.txt".toList]) = some ['B'] := by
  decide

/-- C3 (amended): the TextArtifact of a document is placed at
text-cache-root + base filename + suffix; for documents directly under the
archive root this coincides with the claimed mirrored path, but any two
documents sharing a base filename share one TextArtifact path. -/
theorem text_artifact_flat_path (cfg : Config) (fs : FS) (p q : Path) (content : Content)
    (hpq : pathName p = pathName q) :
    fread (write_content_for_file cfg fs p content) (textArtifactPath cfg p) = some content ∧
    (∀ n : Name, textArtifactPath cfg (cfg.data_dir ++ [n]) =
      cfg.text_dir ++ [n ++ cfg.text_suffix]) ∧
    textArtifactPath cfg p = textArtifactPath cfg q := by
  refine ⟨?_, ?_, ?_⟩
  · unfold write_content_for_file
    exact fread_fwrite_self _ _ _
  · intro n
    unfold textArtifactPath
    rw [pathName_append_singleton]
  · unfold textArtifactPath
    rw [hpq]

/-- C3 witness: the amended placement rule at the two nested fixtures. -/
theorem text_artifact_flat_path_witness :
    fread (write_content_for_file cfgD fsN docSub1 ['A']) (textArtifactPath cfgD docSub1) =
      some ['A'] ∧
    textArtifactPath cfgD docSub1 = textArtifactPath cfgD docSub2 :=
  ⟨(text_artifact_flat_path cfgD fsN docSub1 docSub2 ['A'] (by decide)).1,
   (text_artifact_flat_path cfgD fsN docSub1 docSub2 ['A'] (by decide)).2.2⟩

/-- C4 (counterexample): the two path mappings are not inverses on nested
document paths: `docpath_to_textfilepath` keeps the directory prefix inside
the text directory, but `text_file_path_to_doc_path` returns only the base
name with the suffix stripped, so `sub/a.txt` comes back as `a.txt`. -/
theorem roundtrip_fails_nested_cex :
    text_file_path_to_doc_path cfgD
        (docpath_to_textfilepath cfgD ["sub".toList, "a.txt".toList]) = ["a.txt".toList] ∧
    text_file_path_to_doc_path cfgD
        (docpath_to_textfilepath cfgD ["sub".toList, "a.txt".toList]) ≠
      ["sub".toList, "a.txt".toList] := by
  decide

/-- C4 (amended): on single-component document paths (nonempty, without a
path separator) the two mappings are exact inverses, in both directions. -/
theorem roundtrip_single_component (cfg : Config) (n b : Name)
    (hn : n ≠ []) (hsn : ¬ '/' ∈ n) (hb : b ≠ []) (hsb : ¬ '/' ∈ b) :
    text_file_path_to_doc_path cfg (docpath_to_textfilepath cfg [n]) = [n] ∧
    docpath_to_textfilepath cfg
        (text_file_path_to_doc_path cfg (cfg.text_dir ++ [b ++ ".txt".toList])) =
      cfg.text_dir ++ [b ++ ".txt".toList] := by
  have htxt : ∀ (m : Name), ¬ '/' ∈ m →
      docpath_to_textfilepath cfg [m] = cfg.text_dir ++ [m ++ ".txt".toList] := by
    intro m hsm
    unfold docpath_to_textfilepath
    have hr : renderPath [m] = m := rfl
    rw [hr]
    rw [splitOnChar_of_not_mem '/' (m ++ ".txt".toList) (by
      intro hmem
      rcases List.mem_append.mp hmem with hmm | hmm
      · exact hsm hmm
      · exact absurd hmm (by decide))]
  have hstem : ∀ (m : Name), m ≠ [] → pyStemL (m ++ ".txt".toList) = m := by
    intro m hm
    have hconv : (".txt".toList : List Char) = '.' :: 't' :: 'x' :: 't' :: [] := rfl
    rw [hconv]
    exact pyStemL_append_txt m hm
  constructor
  · rw [htxt n hsn]
    unfold text_file_path_to_doc_path
    rw [pathName_append_singleton, hstem n hn]
  · unfold text_file_path_to_doc_path
    rw [pathName_append_singleton, hstem b hb, htxt b hsb]

/-- C4 witness: the round trip at the concrete names `a.txt` and `b`. -/
theorem roundtrip_single_component_witness :
    text_file_path_to_doc_path cfgD (docpath_to_textfilepath cfgD ["a.txt".toList]) =
      ["a.txt".toList] ∧
    docpath_to_textfilepath cfgD
        (text_file_path_to_doc_path cfgD (cfgD.text_dir ++ ["b".toList ++ ".txt".toList])) =
      cfgD.text_dir ++ ["b".toList ++ ".txt".toList] :=
  roundtrip_single_component cfgD ("a.txt".toList) ("b".toList)
    (by decide) (by decide) (by decide) (by decide)

/-- C5 (counterexample): for a multi-extension name the collision rename is
not obtained by inserting the counter before the extension(s): importing two
distinct files both named `a.tar.gz` leaves `a.tar.gz` and `a.tar_1.tar.gz`
in the archive — the stem keeps `.tar` and all suffixes are re-appended —
while neither `a_1.tar.gz` nor `a.tar_1.gz` exists. -/
theorem collision_name_multi_ext_cex :
    fexists fsT2 (cfgD.data_dir ++ ["a.tar.gz".toList]) = true ∧
    fexists fsT2 (cfgD.data_dir ++ ["a.tar_1.tar.gz".toList]) = true ∧
    fexists fsT2 (cfgD.data_dir ++ ["a_1.tar.gz".toList]) = false ∧
    fexists fsT2 (cfgD.data_dir ++ ["a.tar_1.gz".toList]) = false ∧
    fread fsT2 (cfgD.data_dir ++ ["a.tar.gz".toList]) = some ['X'] ∧
    fread fsT2 (cfgD.data_dir ++ ["a.tar_1.tar.gz".toList]) = some ['Y'] := by
  decide

/-- C5 (amended): `import_file` stores the new file under the first free
name in the sequence `name, stem_1 ++ suffixes, stem_2 ++ suffixes, …`
(`stem` strips only the last extension and all extensions are re-appended,
so for single-extension names the counter is inserted before the extension);
every counter below the chosen one named an occupied destination, the chosen
destination was free, and no pre-existing file other than the overwritten
text artifact is touched. -/
theorem collision_first_free_name (md5 : Content → Name) (cfg : Config) (fs : FS)
    (fp : Path) (content c : Content) (h : fread fs fp = some c) :
    (∀ j, j < freeIndex fs cfg fp →
      fexists fs (cfg.data_dir ++ [collisionName fp j]) = true) ∧
    fexists fs (cfg.data_dir ++ [collisionName fp (freeIndex fs cfg fp)]) = false ∧
    (import_file md5 cfg fs fp content).1 = .error .attributeError ∧
    fread (import_file md5 cfg fs fp content).2
        (cfg.data_dir ++ [collisionName fp (freeIndex fs cfg fp)]) = some c ∧
    (∀ q, q ≠ cfg.data_dir ++ [collisionName fp (freeIndex fs cfg fp)] →
      q ≠ textArtifactPath cfg (cfg.data_dir ++ [collisionName fp (freeIndex fs cfg fp)]) →
      fread (import_file md5 cfg fs fp content).2 q = fread fs q) := by
  obtain ⟨hfree, hocc⟩ := freeIndex_spec fs cfg fp
  refine ⟨hocc, hfree, ?_, ?_, ?_⟩
  · rw [import_file_eq md5 cfg fs fp content c h]
  · rw [import_file_eq md5 cfg fs fp content c h]
    unfold write_content_for_file
    rw [fread_fwrite_ne _ _ _ _ (dest_ne_textArtifactPath cfg _ _)]
    exact fread_fwrite_self _ _ _
  · intro q hq1 hq2
    rw [import_file_eq md5 cfg fs fp content c h]
    unfold write_content_for_file
    rw [fread_fwrite_ne _ _ _ _ hq2, fread_fwrite_ne _ _ _ _ hq1]

/-- C5 witness: the second `a.tar.gz` import lands on a free destination and
its bytes are retrievable there. -/
theorem collision_first_free_name_witness :
    fexists fsT1 (cfgD.data_dir ++ [collisionName srcT2 (freeIndex fsT1 cfgD srcT2)]) =
      false ∧
    fread (import_file extText.md5 cfgD fsT1 srcT2 ['Y']).2
        (cfgD.data_dir ++ [collisionName srcT2 (freeIndex fsT1 cfgD srcT2)]) = some ['Y'] :=
  ⟨(collision_first_free_name extText.md5 cfgD fsT1 srcT2 ['Y'] ['Y'] (by decide)).2.1,
   (collision_first_free_name extText.md5 cfgD fsT1 srcT2 ['Y'] ['Y'] (by decide)).2.2.2.1⟩

/-- C6: when the OCR process exits non-zero on a png, the error propagates
out of `get_content` before `import_file` runs: the one-file import returns
`CalledProcessError` with the file system untouched — no archive copy, no
text artifact, no ledger entry — and the file still tests as not
imported. -/
theorem ocr_failure_no_mutation (ext : Ext) (cfg : Config) (fs : FS) (src : Path)
    (c L : Content)
    (h1 : fread fs src = some c) (h2 : fread fs cfg.md5sum_file = some L)
    (h3 : ¬ ext.md5 c ∈ readlinesStripped L) (h4 : ext.mime c = "image/png".toList)
    (h5 : ext.ocr c = none) :
    import_files ext cfg [src] fs = (.error .calledProcessError, fs) ∧
    is_not_imported ext.md5 fs cfg src = .ok true := by
  exact ⟨import_png_failure_aborts ext cfg fs src c L [] h1 h2 h3 h4 h5,
    is_not_imported_true ext.md5 fs cfg src c L h1 h2 h3⟩

/-- C6 witness: the failing png fixture. -/
theorem ocr_failure_no_mutation_witness :
    import_files extMixed cfgD [srcBad] fsMix = (.error .calledProcessError, fsMix) ∧
    is_not_imported extMixed.md5 fsMix cfgD srcBad = .ok true :=
  ocr_failure_no_mutation extMixed cfgD fsMix srcBad ['P'] []
    (by decide) (by decide) (by decide) (by decide) (by decide)

/-- C7 (counterexample): the batch does not continue after a failing file.
With `scan.png` (OCR fails) followed by `good.txt` (plain text, importable),
the run dies on the png with the file system untouched: `good.txt` is never
archived, although importing it alone would archive it. -/
theorem batch_aborts_cex :
    import_files extMixed cfgD [srcBad, srcGood] fsMix =
      (.error .calledProcessError, fsMix) ∧
    fexists fsMix (cfgD.data_dir ++ ["good.txt".toList]) = false ∧
    fexists (import_files extMixed cfgD [srcGood] fsMix).2
      (cfgD.data_dir ++ ["good.txt".toList]) = true := by
  decide

/-- C7 (amended): an error raised while processing one file propagates out
of the `import_files` loop and terminates the whole batch: whatever paths
follow the failing one are never processed and the returned state is the
state at the moment of the error. -/
theorem batch_error_aborts_rest (ext : Ext) (cfg : Config) (fs : FS) (src : Path)
    (c L : Content)
    (h1 : fread fs src = some c) (h2 : fread fs cfg.md5sum_file = some L)
    (h3 : ¬ ext.md5 c ∈ readlinesStripped L) (h4 : ext.mime c = "image/png".toList)
    (h5 : ext.ocr c = none) :
    ∀ rest : List Path,
      import_files ext cfg (src :: rest) fs = (.error .calledProcessError, fs) :=
  fun rest => import_png_failure_aborts ext cfg fs src c L rest h1 h2 h3 h4 h5

/-- C7 witness: the two-file batch fixture dies on its first file. -/
theorem batch_error_aborts_rest_witness :
    import_files extMixed cfgD [srcBad, srcGood] fsMix =
      (.error .calledProcessError, fsMix) :=
  batch_error_aborts_rest extMixed cfgD fsMix srcBad ['P'] []
    (by decide) (by decide) (by decide) (by decide) (by decide) [srcGood]

/-- C8: pdf extraction rasterizes all pages into the scoped temporary
workspace as `output_0.jpg, output_1.jpg, …` in page order, and — when every
page's OCR succeeds — the extracted text is the concatenation of the
per-page OCR outputs in ascending page order. -/
theorem pdf_pages_ordered_concat (ext : Ext) (input : Content)
    (h : ∀ img ∈ ext.pdfPages input, (ext.ocr img).isSome) :
    (convert_pdf_to_images ext input tempDirPath).1 =
      (List.range (ext.pdfPages input).length).map
        (fun num => tempDirPath ++ [outputImageName num]) ∧
    process_pdf ext input =
      .ok ((ext.pdfPages input).foldr (fun img acc => (ext.ocr img).getD [] ++ acc) []) := by
  constructor
  · rfl
  · have hinj : Function.Injective (fun num => tempDirPath ++ [outputImageName num]) := by
      intro a b hab
      have h1 := @List.append_cancel_left Name tempDirPath _ _ hab
      simp only [List.cons.injEq, and_true] at h1
      exact outputImageName_injective h1
    unfold process_pdf convert_pdf_to_images
    apply ocrPages_ok
    · exact fread_zip_self _ _ ((List.nodup_range _).map hinj)
    · simp
    · exact h

/-- C8 witness: the two-page pdf fixture. -/
theorem pdf_pages_ordered_concat_witness :
    (convert_pdf_to_images extPdf ['d'] tempDirPath).1 =
      (List.range (extPdf.pdfPages ['d']).length).map
        (fun num => tempDirPath ++ [outputImageName num]) ∧
    process_pdf extPdf ['d'] =
      .ok ((extPdf.pdfPages ['d']).foldr
        (fun img acc => (extPdf.ocr img).getD [] ++ acc) []) :=
  pdf_pages_ordered_concat extPdf ['d'] (by decide)

/-- C9: the fingerprint is a function of the byte content alone, and the
chunked incremental computation agrees, for every positive chunk size, with
feeding the whole stream to the accumulator in one pass — in particular the
source's 8 KiB chunking is immaterial. -/
theorem fingerprint_chunk_independent {σ : Type} (h : IncrementalHash σ) (c : Content)
    (n : Nat) (hn : 1 ≤ n) :
    get_md5sum_chunked h 8192 c = h.hexdigest (h.update h.init c) ∧
    get_md5sum_chunked h n c = get_md5sum_chunked h 8192 c := by
  have h8192 := foldl_chunksOfAux h 8192 (by omega) c.length c h.init le_rfl
  have hgen := foldl_chunksOfAux h n hn c.length c h.init le_rfl
  constructor
  · unfold get_md5sum_chunked chunksOf
    rw [h8192]
  · unfold get_md5sum_chunked chunksOf
    rw [h8192, hgen]

/-- C9 witness: the concatenation accumulator on the stream `abc` with chunk
size 2. -/
theorem fingerprint_chunk_independent_witness :
    get_md5sum_chunked accHash 8192 ('a' :: 'b' :: 'c' :: []) =
      accHash.hexdigest (accHash.update accHash.init ('a' :: 'b' :: 'c' :: [])) ∧
    get_md5sum_chunked accHash 2 ('a' :: 'b' :: 'c' :: []) =
      get_md5sum_chunked accHash 8192 ('a' :: 'b' :: 'c' :: []) :=
  fingerprint_chunk_independent accHash ('a' :: 'b' :: 'c' :: []) 2 (by decide)

/-- C10 (counterexample): rescan does not always leave an empty ledger.  A
document named `.md5sums` under the archive root has its text artifact
written to `_text/.md5sums.txt` — the ledger path — so after a confirmed
rescan the ledger holds that document's extracted text, and a document whose
digest happens to appear there is treated as already imported. -/
theorem rescan_ledger_clobber_cex :
    fread (rescan_all extText cfgD true fsH).2 cfgD.md5sum_file =
      some ('h' :: 'X' :: '\n' :: []) ∧
    is_not_imported extText.md5 (rescan_all extText cfgD true fsH).2 cfgD docPlain =
      .ok false := by
  decide

/-- C10 (amended): provided no file in the archive is named `.md5sums`, a
confirmed `rescan_all` deletes the ledger with the text cache, recreates it
empty, never re-appends to it, and afterwards every readable file — in
particular every archived document — is treated as not imported. -/
theorem rescan_empties_ledger (ext : Ext) (cfg : Config) (fs : FS)
    (hname : ∀ p ∈ fs.map Prod.fst, pathName p ≠ ".md5sums".toList) :
    fread (rescan_all ext cfg true fs).2 cfg.md5sum_file = some [] ∧
    ∀ (md5 : Content → Name) (p : Path) (c : Content),
      fread (rescan_all ext cfg true fs).2 p = some c →
      is_not_imported md5 (rescan_all ext cfg true fs).2 cfg p = .ok true := by
  have hled : fread (rescan_all ext cfg true fs).2 cfg.md5sum_file = some [] := by
    rw [rescan_all_true_eq]
    rw [rescan_files_ledger ext cfg _ _ (rescan_pathlist_names cfg fs hname)]
    exact ledger_after_wipe cfg fs
  refine ⟨hled, ?_⟩
  intro md5 p c hp
  unfold is_not_imported
  rw [hled]
  show (match get_md5sum md5 ((rescan_all ext cfg true fs).2) (.path p) with
    | .error e => (.error e : Except PyErr Bool)
    | .ok s => .ok (decide (¬ s ∈ readlinesStripped []))) = .ok true
  have hg : get_md5sum md5 ((rescan_all ext cfg true fs).2) (.path p) = .ok (md5 c) := by
    show (match fread (rescan_all ext cfg true fs).2 p with
      | none => (Except.error PyErr.ioError : Except PyErr Name)
      | some c => Except.ok (md5 c)) = .ok (md5 c)
    rw [hp]
  rw [hg]
  show Except.ok (decide (¬ md5 c ∈ readlinesStripped [])) = .ok true
  have hr : readlinesStripped ([] : Content) = [] := rfl
  rw [hr]
  simp

/-- C10 witness: the nested fixture without a `.md5sums` document: after the
rescan the ledger is empty and the regenerated artifact tests as not
imported. -/
theorem rescan_empties_ledger_witness :
    fread (rescan_all extText cfgD true fsN).2 cfgD.md5sum_file = some [] ∧
    is_not_imported extText.md5 (rescan_all extText cfgD true fsN).2 cfgD
      (cfgD.text_dir ++ ["f.txt.txt".toList]) = .ok true :=
  ⟨(rescan_empties_ledger extText cfgD fsN (by decide)).1,
   (rescan_empties_ledger extText cfgD fsN (by decide)).2 extText.md5
     (cfgD.text_dir ++ ["f.txt.txt".toList]) ['B'] (by decide)⟩

end Docspace
